import Mathlib

/-!
Verification of the RCSVLogger component (qml-logger repository).

The repository ships only the class declaration `src/RCSVLogger.h`; the member
function bodies (RCSVLogger.cpp) are not under src/.  The operations below are
therefore modelled from the specification (spec.md) and from the doc comments
of the header, as flagged on each definition.  Files are modelled as raw
character contents so that line counting and byte offsets are faithful.
-/

namespace RCSVLogger

/-- Association-list lookup by key, standing for QMap lookup. -/
def alookup {α : Type} (p : String) : List (String × α) → Option α
  | [] => none
  | e :: es => if e.1 = p then some e.2 else alookup p es

/-- Association-list update, standing for QMap insert: replaces the entry for
the key if present, otherwise appends a fresh entry. -/
def aset {α : Type} (p : String) (v : α) : List (String × α) → List (String × α)
  | [] => [(p, v)]
  | e :: es => if e.1 = p then (p, v) :: es else e :: aset p v es

/-- Splits a character list on a separator, keeping empty segments. -/
def splitChar (sep : Char) : List Char → List (List Char)
  | [] => [[]]
  | c :: cs =>
      if c = sep then [] :: splitChar sep cs
      else
        match splitChar sep cs with
        | [] => [[c]]
        | h :: t => (c :: h) :: t

/-- Serialises a list of lines into raw file contents, one trailing newline per line. -/
def joinLines (ls : List String) : List Char :=
  (ls.map (fun l => l.data ++ ['\n'])).flatten

/-- All lines of raw file contents: split on newline, dropping the empty
segment left after a trailing newline. -/
def linesOfContent (c : List Char) : List String :=
  let parts := splitChar '\n' c
  (if parts.getLast? = some [] then parts.dropLast else parts).map (fun l => ⟨l⟩)

/-- A line is newline-free. -/
abbrev noNL (s : String) : Prop := '\n' ∉ s.data

/-- Joins CSV fields with the comma delimiter. -/
def joinFields : List String → String
  | [] => ""
  | [x] => x
  | x :: y :: xs => x ++ "," ++ joinFields (y :: xs)

/-- Decimal rendering of a natural number (QString::number for counts). -/
def natToString (n : Nat) : String :=
  if n = 0 then "0"
  else ⟨((Nat.digits 10 n).map (fun d => Char.ofNat (d + 48))).reverse⟩

/-- The numeric value of a decimal digit character, if it is one. -/
def digitVal (c : Char) : Option Nat :=
  if 48 ≤ c.toNat ∧ c.toNat ≤ 57 then some (c.toNat - 48) else none

/-- Reads a most-significant-first digit string into an accumulator. -/
def readDigits : List Char → Nat → Option Nat
  | [], acc => some acc
  | c :: cs, acc =>
      match digitVal c with
      | some d => readDigits cs (acc * 10 + d)
      | none => none

/-- Parses a non-empty all-digit character list as a natural number. -/
def natFromChars (cs : List Char) : Option Nat :=
  if cs.isEmpty then none else readDigits cs 0

/-- Modelled from the spec: §3 — a Row value is of mixed primitive type
(string, number, boolean); RCSVLogger.cpp (the QVariant handling) is not in src/. -/
inductive Value where
  | str (s : String)
  | int (n : Int)
  | bool (b : Bool)
deriving DecidableEq, Repr

/-- Modelled from the spec: §3/§4.1 — each value is rendered via its default
textual representation. -/
def renderValue : Value → String
  | .str s => s
  | .int n => toString n
  | .bool b => if b then "true" else "false"

/-- A wall-clock date and time, standing for QDateTime. -/
structure DateTime where
  year : Nat
  month : Nat
  day : Nat
  hour : Nat
  minute : Nat
  second : Nat
  msec : Nat
deriving DecidableEq, Repr

/-- Zero-pads the decimal rendering of a number to a given width, as the Qt
date-time format tokens do. -/
def pad (w : Nat) (n : Nat) : String :=
  ⟨List.replicate (w - (toString n).length) '0' ++ (toString n).data⟩

/-- Interpreter for the Qt date-time format tokens the logger uses
(yyyy, MM, dd, HH, mm, ss, zzz); any other character is a literal. -/
def qtFormatRun (dt : DateTime) : List Char → List Char
  | 'y' :: 'y' :: 'y' :: 'y' :: rest => (pad 4 dt.year).data ++ qtFormatRun dt rest
  | 'M' :: 'M' :: rest => (pad 2 dt.month).data ++ qtFormatRun dt rest
  | 'd' :: 'd' :: rest => (pad 2 dt.day).data ++ qtFormatRun dt rest
  | 'H' :: 'H' :: rest => (pad 2 dt.hour).data ++ qtFormatRun dt rest
  | 'm' :: 'm' :: rest => (pad 2 dt.minute).data ++ qtFormatRun dt rest
  | 's' :: 's' :: rest => (pad 2 dt.second).data ++ qtFormatRun dt rest
  | 'z' :: 'z' :: 'z' :: rest => (pad 3 dt.msec).data ++ qtFormatRun dt rest
  | c :: rest => c :: qtFormatRun dt rest
  | [] => []

/-- QDateTime::toString on a format string, via the token interpreter. -/
def qtToString (dt : DateTime) (fmt : String) : String :=
  ⟨qtFormatRun dt fmt.data⟩

/-- Modelled from the spec: RCSVLogger.cpp is not in src/; per the header's
class doc the timestamp is rendered as yyyy-MM-dd HH:mm:ss.zzz, with the
milliseconds part present iff logMillis. -/
def formatDateTime (dt : DateTime) (millis : Bool) : String :=
  if millis then qtToString dt "yyyy-MM-dd HH:mm:ss.zzz"
  else qtToString dt "yyyy-MM-dd HH:mm:ss"

/-- The timestamp header field string (RCSVLogger.h line 198). -/
def timestampHeader : String := "Timestamp"

/-- Path to the log manager file (RCSVLogger.h line 200). -/
def logManagerPath : String := "logManager.csv"

/-- The fields of RCSVLogger that the modelled operations read and write
(RCSVLogger.h lines 185-206). -/
structure LoggerState where
  filename : String
  header : List String
  writing : Bool
  logTime : Bool
  logMillis : Bool
  serverURL : String
  logManager : List (String × Nat × Nat)
  updates : List (String × List String)
deriving DecidableEq, Repr

/-- The local file system as a map from path to raw contents. -/
abbrev FS := List (String × List Char)

/-- A world: the file system together with the logger state. -/
structure World where
  fs : FS
  st : LoggerState
deriving DecidableEq, Repr

/-- Modelled from the spec: §4.1 buildHeaderString — RCSVLogger.cpp is not in
src/. A single delimited line: the Timestamp field iff logTime, then the
configured header fields. -/
def buildHeaderString (st : LoggerState) : String :=
  if st.logTime then joinFields (timestampHeader :: st.header)
  else joinFields st.header

/-- Modelled from the spec: §4.1 buildLogLine — RCSVLogger.cpp is not in src/.
A delimited line: the current timestamp iff logTime, then each value rendered
as text. -/
def buildLogLine (st : LoggerState) (now : DateTime) (data : List Value) : String :=
  if st.logTime then
    joinFields (formatDateTime now st.logMillis :: data.map renderValue)
  else joinFields (data.map renderValue)

/-- Modelled from the spec: §4.2 Local Append (updateLocal) — RCSVLogger.cpp is
not in src/. Writes the header line first when the target file is absent or
empty, appends the row line terminated by a newline, and increments the local
row count in the manager. -/
def updateLocal (fs : FS) (m : List (String × Nat × Nat)) (path : String)
    (headerLine line : String) : FS × List (String × Nat × Nat) :=
  let content := (alookup path fs).getD []
  let withHeader := if content.isEmpty then content ++ headerLine.data ++ ['\n'] else content
  let c := (alookup path m).getD (0, 0)
  (aset path (withHeader ++ line.data ++ ['\n']) fs, aset path (c.1 + 1, c.2) m)

/-- Modelled from the spec: §4.4 Remote Sync (updateRemote) — RCSVLogger.cpp is
not in src/. The server acknowledgement is the ack argument: on success the
remote count advances to the local count and the pending buffer of the file is
cleared; on failure the manager and the buffer are unchanged. -/
def updateRemote (m : List (String × Nat × Nat)) (u : List (String × List String))
    (path : String) (ack : Bool) :
    List (String × Nat × Nat) × List (String × List String) :=
  if ack then
    let c := (alookup path m).getD (0, 0)
    (aset path (c.1, c.1) m, aset path [] u)
  else (m, u)

/-- Modelled from the spec: §4.3 and §6 — the manager file serialisation used
by saveLogManager, one line `path,localCount,remoteCount` per tracked file. -/
def serializeManager (m : List (String × Nat × Nat)) : List Char :=
  joinLines (m.map (fun e => e.1 ++ "," ++ natToString e.2.1 ++ "," ++ natToString e.2.2))

/-- Modelled from the spec: §4.3 saveLogManager — overwrites the manager file
with the serialisation of the whole mapping. -/
def saveLogManager (fs : FS) (m : List (String × Nat × Nat)) : FS :=
  aset logManagerPath (serializeManager m) fs

/-- Parses one manager line `path,localCount,remoteCount`. -/
def parseManagerLine (l : String) : Option (String × Nat × Nat) :=
  match splitChar ',' l.data with
  | [p, a, b] =>
      match natFromChars a, natFromChars b with
      | some x, some y => some (⟨p⟩, x, y)
      | _, _ => none
  | _ => none

/-- Parses a list of manager lines; none when any line is malformed. -/
def parseManagerLines : List String → Option (List (String × Nat × Nat))
  | [] => some []
  | l :: ls =>
      match parseManagerLine l, parseManagerLines ls with
      | some e, some es => some (e :: es)
      | _, _ => none

/-- Parses a whole manager file; none when any line is malformed. -/
def parseManager (c : List Char) : Option (List (String × Nat × Nat)) :=
  parseManagerLines (linesOfContent c)

/-- Modelled from the spec: §4.3 loadLogManager — reads the manager file if
present; an absent or malformed manager file yields the empty mapping. -/
def loadLogManager (fs : FS) : List (String × Nat × Nat) :=
  match alookup logManagerPath fs with
  | none => []
  | some c => (parseManager c).getD []

/-- Modelled from the spec: §4.5 CSVReader — reads all lines of a file starting
from a given byte offset. -/
def CSVReader (content : List Char) (fromByte : Nat) : List String :=
  linesOfContent (content.drop fromByte)

/-- Byte offset of the start of row k of a file given as its lines: each line
costs its length plus one newline character. -/
def byteOffsetOfRows (ls : List String) (k : Nat) : Nat :=
  ((ls.take k).map (fun l => l.length + 1)).sum

/-- Modelled from the spec: §4.5 Reconciliation on Startup — rebuilds the
pending buffer of a file from the local file via CSVReader, reading from the
byte offset implied by the remote count (past the header and the first
remoteCount rows). RCSVLogger.cpp is not in src/. -/
def reconstructPending (fs : FS) (path : String) (remote : Nat) : List String :=
  match alookup path fs with
  | none => []
  | some c => CSVReader c (byteOffsetOfRows (linesOfContent c) (remote + 1))

/-- Modelled from the spec: §2 data flow and §4.2-4.4 — the log(data) slot;
RCSVLogger.cpp is not in src/. Builds the row line, appends it locally (header
first on an absent or empty file), buffers the row, attempts the remote push of
the whole buffer for the file (ack is the server's acknowledgement), persists
the manager, and marks the log as being written. Also returns the batch of
rows handed to the remote push. -/
def log (w : World) (now : DateTime) (data : List Value) (ack : Bool) :
    World × List String :=
  let st := w.st
  let path := st.filename
  let line := buildLogLine st now data
  let p1 := updateLocal w.fs st.logManager path (buildHeaderString st) line
  let u1 := aset path ((alookup path st.updates).getD [] ++ [line]) st.updates
  let batch := (alookup path u1).getD []
  let p2 := updateRemote p1.2 u1 path ack
  let fs2 := saveLogManager p1.1 p2.1
  (⟨fs2, { st with writing := true, logManager := p2.1, updates := p2.2 }⟩, batch)

/-- Modelled from the spec: §6 and RCSVLogger.h line 125 — setLogTime has no
effect after the first log() (while the log is being written). -/
def setLogTime (st : LoggerState) (b : Bool) : LoggerState :=
  if st.writing then st else { st with logTime := b }

/-- Modelled from the spec: §6 and RCSVLogger.h line 139 — setHeader has no
effect after the first log() (while the log is being written). -/
def setHeader (st : LoggerState) (h : List String) : LoggerState :=
  if st.writing then st else { st with header := h }

/-- Modelled from the spec: §6 and RCSVLogger.h line 78 — close() ends writing,
unfreezing the timestamp and header settings. -/
def close (st : LoggerState) : LoggerState :=
  { st with writing := false }

/-- Runs a sequence of log calls, each entry a timestamp and a data row, with a
fixed server response for every push. -/
def logMany (w : World) (entries : List (DateTime × List Value)) (ack : Bool) : World :=
  entries.foldl (fun acc e => (log acc e.1 e.2 ack).1) w

/-- Value of a most-significant-first digit list on top of an accumulator. -/
def valMS : List Nat → Nat → Nat
  | [], acc => acc
  | d :: ds, acc => valMS ds (acc * 10 + d)

/-- The log manager invariant: one entry per file (keys without duplicates) and
remote row count at most local row count. -/
def managerWF (m : List (String × Nat × Nat)) : Prop :=
  (m.map Prod.fst).Nodup ∧ ∀ e ∈ m, e.2.2 ≤ e.2.1

/-- Tracked paths usable in the one-line-per-file manager serialisation:
no delimiter and no newline in the path. -/
def cleanKeys (m : List (String × Nat × Nat)) : Prop :=
  ∀ e ∈ m, ',' ∉ e.1.data ∧ '\n' ∉ e.1.data

theorem alookup_aset_self {α : Type} (p : String) (v : α) (l : List (String × α)) :
    alookup p (aset p v l) = some v := by
  induction l with
  | nil => simp [aset, alookup]
  | cons e es ih =>
    by_cases h : e.1 = p
    · simp [aset, h, alookup]
    · simp [aset, h, alookup, ih]

theorem alookup_aset_ne {α : Type} {q p : String} (h : q ≠ p) (v : α)
    (l : List (String × α)) : alookup q (aset p v l) = alookup q l := by
  induction l with
  | nil =>
    simp only [aset, alookup]
    rw [if_neg (fun hh => h hh.symm)]
  | cons e es ih =>
    by_cases hc : e.1 = p
    · subst hc
      simp only [aset, if_pos rfl, alookup]
      rw [if_neg (fun hh => h hh.symm), if_neg (fun hh => h hh.symm)]
    · simp [aset, hc, alookup, ih]

theorem alookup_mem {α : Type} {p : String} {v : α} {l : List (String × α)}
    (h : alookup p l = some v) : (p, v) ∈ l := by
  induction l with
  | nil => simp [alookup] at h
  | cons e es ih =>
    by_cases hc : e.1 = p
    · simp only [alookup, if_pos hc] at h
      have he : e = (p, v) := by
        cases e
        simp_all
      exact he ▸ List.mem_cons_self _ _
    · simp only [alookup, if_neg hc] at h
      exact List.mem_cons_of_mem _ (ih h)

theorem mem_aset {α : Type} {e : String × α} {p : String} {v : α}
    {l : List (String × α)} (h : e ∈ aset p v l) : e = (p, v) ∨ e ∈ l := by
  induction l with
  | nil => simpa [aset] using h
  | cons f fs ih =>
    by_cases hc : f.1 = p
    · simp only [aset, if_pos hc] at h
      rcases List.mem_cons.mp h with h1 | h1
      · exact Or.inl h1
      · exact Or.inr (List.mem_cons_of_mem _ h1)
    · simp only [aset, if_neg hc] at h
      rcases List.mem_cons.mp h with h1 | h1
      · exact Or.inr (h1 ▸ List.mem_cons_self _ _)
      · rcases ih h1 with h2 | h2
        · exact Or.inl h2
        · exact Or.inr (List.mem_cons_of_mem _ h2)

theorem keys_aset {α : Type} (p : String) (v : α) (l : List (String × α)) :
    (aset p v l).map Prod.fst =
      if p ∈ l.map Prod.fst then l.map Prod.fst else l.map Prod.fst ++ [p] := by
  induction l with
  | nil => simp [aset]
  | cons e es ih =>
    by_cases hc : e.1 = p
    · simp [aset, hc]
    · have hne : p ≠ e.1 := fun hh => hc hh.symm
      by_cases hm : p ∈ es.map Prod.fst
      · simp [aset, hc, ih, hm, hne]
      · simp [aset, hc, ih, hm, hne]

theorem nodup_keys_aset {α : Type} (p : String) (v : α) {l : List (String × α)}
    (h : (l.map Prod.fst).Nodup) : ((aset p v l).map Prod.fst).Nodup := by
  rw [keys_aset]
  by_cases hm : p ∈ l.map Prod.fst
  · simpa [hm] using h
  · simp [hm, List.nodup_append, h]

theorem splitChar_of_not_mem {sep : Char} {cs : List Char} (h : sep ∉ cs) :
    splitChar sep cs = [cs] := by
  induction cs with
  | nil => rfl
  | cons c cs ih =>
    have hc : ¬ c = sep := fun hh => h (hh ▸ List.mem_cons_self _ _)
    have h' : sep ∉ cs := fun hh => h (List.mem_cons_of_mem _ hh)
    simp only [splitChar, if_neg hc, ih h']

theorem splitChar_append (sep : Char) (l rest : List Char) (h : sep ∉ l) :
    splitChar sep (l ++ sep :: rest) = l :: splitChar sep rest := by
  induction l with
  | nil => simp [splitChar]
  | cons c cs ih =>
    have hc : ¬ c = sep := fun hh => h (hh ▸ List.mem_cons_self _ _)
    have h' : sep ∉ cs := fun hh => h (List.mem_cons_of_mem _ hh)
    simp only [List.cons_append, splitChar, if_neg hc, List.append_eq, ih h']

theorem joinLines_cons (a : String) (ls : List String) :
    joinLines (a :: ls) = a.data ++ '\n' :: joinLines ls := by
  simp [joinLines]

theorem joinLines_append (a b : List String) :
    joinLines (a ++ b) = joinLines a ++ joinLines b := by
  simp [joinLines]

theorem joinLines_ne_nil {ls : List String} (h : ls ≠ []) : joinLines ls ≠ [] := by
  cases ls with
  | nil => exact absurd rfl h
  | cons a t =>
    rw [joinLines_cons]
    simp

theorem splitChar_joinLines (ls : List String) (h : ∀ l ∈ ls, noNL l) :
    splitChar '\n' (joinLines ls) = ls.map String.data ++ [[]] := by
  induction ls with
  | nil => simp [joinLines, splitChar]
  | cons a t ih =>
    rw [joinLines_cons, splitChar_append _ _ _ (h a (List.mem_cons_self _ _)),
      ih (fun l hl => h l (List.mem_cons_of_mem _ hl))]
    simp

theorem linesOfContent_joinLines (ls : List String) (h : ∀ l ∈ ls, noNL l) :
    linesOfContent (joinLines ls) = ls := by
  simp only [linesOfContent]
  rw [splitChar_joinLines ls h]
  rw [List.getLast?_concat, if_pos rfl, List.dropLast_concat, List.map_map]
  have hid : (fun l => (⟨l⟩ : String)) ∘ String.data = id := funext (fun s => rfl)
  rw [hid, List.map_id]

theorem length_joinLines (ls : List String) :
    (joinLines ls).length = ((ls.map (fun l => l.length + 1))).sum := by
  induction ls with
  | nil => rfl
  | cons a t ih =>
    rw [joinLines_cons]
    simp only [List.length_append, List.length_cons, List.map_cons, List.sum_cons, ih]
    have : a.data.length = a.length := rfl
    omega

theorem drop_joinLines (ls : List String) (k : Nat) :
    (joinLines ls).drop (byteOffsetOfRows ls k) = joinLines (ls.drop k) := by
  have h1 : byteOffsetOfRows ls k = (joinLines (ls.take k)).length := by
    rw [length_joinLines]
    rfl
  calc (joinLines ls).drop (byteOffsetOfRows ls k)
      = (joinLines (ls.take k) ++ joinLines (ls.drop k)).drop
          (joinLines (ls.take k)).length := by
        rw [← joinLines_append, List.take_append_drop, h1]
    _ = joinLines (ls.drop k) := List.drop_left _ _

theorem data_append (s t : String) : (s ++ t).data = s.data ++ t.data := rfl

theorem digit_char (d : Nat) (h : d < 10) :
    digitVal (Char.ofNat (d + 48)) = some d
    ∧ Char.ofNat (d + 48) ≠ ','
    ∧ Char.ofNat (d + 48) ≠ '\n' := by
  interval_cases d <;> exact ⟨by decide, by decide, by decide⟩

theorem natToString_clean (n : Nat) :
    ',' ∉ (natToString n).data ∧ '\n' ∉ (natToString n).data := by
  unfold natToString
  by_cases h0 : n = 0
  · rw [if_pos h0]
    exact ⟨by decide, by decide⟩
  · rw [if_neg h0]
    constructor <;> intro hmem
    · rw [List.mem_reverse] at hmem
      obtain ⟨d, hd, hfd⟩ := List.mem_map.mp hmem
      exact (digit_char d (Nat.digits_lt_base (by norm_num) hd)).2.1 hfd
    · rw [List.mem_reverse] at hmem
      obtain ⟨d, hd, hfd⟩ := List.mem_map.mp hmem
      exact (digit_char d (Nat.digits_lt_base (by norm_num) hd)).2.2 hfd

theorem readDigits_map (ds : List Nat) (h : ∀ d ∈ ds, d < 10) (acc : Nat) :
    readDigits (ds.map (fun d => Char.ofNat (d + 48))) acc = some (valMS ds acc) := by
  induction ds generalizing acc with
  | nil => rfl
  | cons d ds ih =>
    simp only [List.map_cons, readDigits, (digit_char d (h d (List.mem_cons_self _ _))).1]
    exact ih (fun x hx => h x (List.mem_cons_of_mem _ hx)) (acc * 10 + d)

theorem valMS_eq (ds : List Nat) (acc : Nat) :
    valMS ds acc = acc * 10 ^ ds.length + Nat.ofDigits 10 ds.reverse := by
  induction ds generalizing acc with
  | nil => simp [valMS, Nat.ofDigits]
  | cons d ds ih =>
    simp only [valMS, List.length_cons, List.reverse_cons]
    rw [ih, Nat.ofDigits_append]
    simp only [List.length_reverse, Nat.ofDigits_singleton]
    ring

theorem natFromChars_natToString (n : Nat) :
    natFromChars (natToString n).data = some n := by
  by_cases h0 : n = 0
  · subst h0
    decide
  · have hne : Nat.digits 10 n ≠ [] := Nat.digits_ne_nil_iff_ne_zero.mpr h0
    have hlt : ∀ d ∈ (Nat.digits 10 n).reverse, d < 10 := fun d hd =>
      Nat.digits_lt_base (by norm_num) (List.mem_reverse.mp hd)
    unfold natToString natFromChars
    rw [if_neg h0]
    have hne2 :
        (((Nat.digits 10 n).map (fun d => Char.ofNat (d + 48))).reverse).isEmpty = false := by
      simp [List.isEmpty_iff, hne]
    show (if _ then _ else _) = _
    rw [hne2]
    simp only [Bool.false_eq_true, if_false]
    rw [← List.map_reverse, readDigits_map _ hlt 0, valMS_eq]
    simp [Nat.ofDigits_digits]

theorem parseManagerLine_serialize (p : String) (l r : Nat) (hp : ',' ∉ p.data) :
    parseManagerLine (p ++ "," ++ natToString l ++ "," ++ natToString r) = some (p, l, r) := by
  have hdata : (p ++ "," ++ natToString l ++ "," ++ natToString r).data
      = p.data ++ ',' :: ((natToString l).data ++ ',' :: (natToString r).data) := by
    show p.data ++ [','] ++ (natToString l).data ++ [','] ++ (natToString r).data = _
    simp
  simp only [parseManagerLine, hdata, splitChar_append _ _ _ hp,
    splitChar_append _ _ _ (natToString_clean l).1,
    splitChar_of_not_mem (natToString_clean r).1,
    natFromChars_natToString]

theorem managerLine_noNL (e : String × Nat × Nat) (h : '\n' ∉ e.1.data) :
    noNL (e.1 ++ "," ++ natToString e.2.1 ++ "," ++ natToString e.2.2) := by
  intro hmem
  rw [show (e.1 ++ "," ++ natToString e.2.1 ++ "," ++ natToString e.2.2).data
      = e.1.data ++ [','] ++ (natToString e.2.1).data ++ [','] ++ (natToString e.2.2).data
      from rfl] at hmem
  simp only [List.mem_append, List.mem_singleton] at hmem
  rcases hmem with ((((hx | hx) | hx) | hx) | hx)
  · exact h hx
  · exact absurd hx (by decide)
  · exact (natToString_clean e.2.1).2 hx
  · exact absurd hx (by decide)
  · exact (natToString_clean e.2.2).2 hx

theorem parseManagerLines_serialize (m : List (String × Nat × Nat)) (h : cleanKeys m) :
    parseManagerLines
      (m.map (fun e => e.1 ++ "," ++ natToString e.2.1 ++ "," ++ natToString e.2.2))
      = some m := by
  induction m with
  | nil => rfl
  | cons e es ih =>
    simp only [List.map_cons, parseManagerLines,
      parseManagerLine_serialize e.1 e.2.1 e.2.2 (h e (List.mem_cons_self _ _)).1,
      ih (fun x hx => h x (List.mem_cons_of_mem _ hx))]

theorem parseManager_serializeManager (m : List (String × Nat × Nat)) (h : cleanKeys m) :
    parseManager (serializeManager m) = some m := by
  have hnl : ∀ l ∈ m.map
      (fun e => e.1 ++ "," ++ natToString e.2.1 ++ "," ++ natToString e.2.2), noNL l := by
    intro l hl
    obtain ⟨e, he, hrfl⟩ := List.mem_map.mp hl
    exact hrfl ▸ managerLine_noNL e (h e he).2
  simp only [parseManager, serializeManager]
  rw [linesOfContent_joinLines _ hnl, parseManagerLines_serialize m h]

theorem loadLogManager_saveLogManager (fs : FS) (m : List (String × Nat × Nat))
    (h : cleanKeys m) : loadLogManager (saveLogManager fs m) = m := by
  simp only [loadLogManager, saveLogManager, alookup_aset_self,
    parseManager_serializeManager m h, Option.getD_some]

theorem log_st_filename (w : World) (now : DateTime) (data : List Value) (ack : Bool) :
    ((log w now data ack).1).st.filename = w.st.filename := rfl

theorem log_st_writing (w : World) (now : DateTime) (data : List Value) (ack : Bool) :
    ((log w now data ack).1).st.writing = true := rfl

theorem log_fs_path (w : World) (now : DateTime) (data : List Value) (ack : Bool)
    (hne : w.st.filename ≠ logManagerPath) :
    alookup w.st.filename ((log w now data ack).1).fs
      = some ((if ((alookup w.st.filename w.fs).getD []).isEmpty
               then ((alookup w.st.filename w.fs).getD [])
                 ++ (buildHeaderString w.st).data ++ ['\n']
               else (alookup w.st.filename w.fs).getD [])
              ++ (buildLogLine w.st now data).data ++ ['\n']) := by
  simp only [log, updateLocal, saveLogManager]
  rw [alookup_aset_ne hne, alookup_aset_self]

theorem log_batch (w : World) (now : DateTime) (data : List Value) (ack : Bool) :
    (log w now data ack).2
      = (alookup w.st.filename w.st.updates).getD [] ++ [buildLogLine w.st now data] := by
  simp only [log]
  rw [alookup_aset_self]
  rfl

theorem log_manager_false (w : World) (now : DateTime) (data : List Value) :
    ((log w now data false).1).st.logManager
      = aset w.st.filename
          (((alookup w.st.filename w.st.logManager).getD (0, 0)).1 + 1,
           ((alookup w.st.filename w.st.logManager).getD (0, 0)).2)
          w.st.logManager := rfl

theorem log_updates_false (w : World) (now : DateTime) (data : List Value) :
    ((log w now data false).1).st.updates
      = aset w.st.filename
          ((alookup w.st.filename w.st.updates).getD [] ++ [buildLogLine w.st now data])
          w.st.updates := rfl

theorem log_manager_true (w : World) (now : DateTime) (data : List Value) :
    ((log w now data true).1).st.logManager
      = aset w.st.filename
          (((alookup w.st.filename w.st.logManager).getD (0, 0)).1 + 1,
           ((alookup w.st.filename w.st.logManager).getD (0, 0)).1 + 1)
          (aset w.st.filename
            (((alookup w.st.filename w.st.logManager).getD (0, 0)).1 + 1,
             ((alookup w.st.filename w.st.logManager).getD (0, 0)).2)
            w.st.logManager) := by
  simp only [log, updateLocal, updateRemote, if_true]
  rw [alookup_aset_self]
  rfl

theorem log_updates_true (w : World) (now : DateTime) (data : List Value) :
    ((log w now data true).1).st.updates
      = aset w.st.filename []
          (aset w.st.filename
            ((alookup w.st.filename w.st.updates).getD [] ++ [buildLogLine w.st now data])
            w.st.updates) := rfl

theorem logMany_nil (w : World) (ack : Bool) : logMany w [] ack = w := rfl

theorem logMany_cons (w : World) (e : DateTime × List Value)
    (es : List (DateTime × List Value)) (ack : Bool) :
    logMany w (e :: es) ack = logMany ((log w e.1 e.2 ack).1) es ack := rfl

theorem isEmpty_false_of_ne {l : List Char} (h : l ≠ []) : l.isEmpty = false := by
  simp [List.isEmpty_iff, h]

theorem joinLines_concat (ls : List String) (a : String) :
    joinLines (ls ++ [a]) = joinLines ls ++ a.data ++ ['\n'] := by
  simp [joinLines_append, joinLines]

theorem logMany_content (ack : Bool) (entries : List (DateTime × List Value)) :
    ∀ (w : World) (ls : List String), w.st.filename ≠ logManagerPath →
      ls ≠ [] →
      alookup w.st.filename w.fs = some (joinLines ls) →
      alookup w.st.filename ((logMany w entries ack)).fs
        = some (joinLines (ls ++ entries.map (fun e => buildLogLine w.st e.1 e.2))) := by
  induction entries with
  | nil =>
    intro w ls h1 h2 h3
    simpa [logMany_nil] using h3
  | cons e es ih =>
    intro w ls h1 h2 h3
    rw [logMany_cons]
    have hfs : alookup ((log w e.1 e.2 ack).1).st.filename ((log w e.1 e.2 ack).1).fs
        = some (joinLines (ls ++ [buildLogLine w.st e.1 e.2])) := by
      rw [log_st_filename, log_fs_path w e.1 e.2 ack h1, h3]
      simp only [Option.getD_some, isEmpty_false_of_ne (joinLines_ne_nil h2),
        Bool.false_eq_true, if_false]
      rw [joinLines_concat]
    have h1' : ((log w e.1 e.2 ack).1).st.filename ≠ logManagerPath := by
      rw [log_st_filename]
      exact h1
    have ih' := ih ((log w e.1 e.2 ack).1) (ls ++ [buildLogLine w.st e.1 e.2]) h1'
      (by simp) hfs
    rw [log_st_filename] at ih'
    have hfun : (fun (x : DateTime × List Value) =>
        buildLogLine ((log w e.1 e.2 ack).1).st x.1 x.2)
        = (fun x => buildLogLine w.st x.1 x.2) := rfl
    rw [hfun] at ih'
    rw [List.map_cons, List.append_cons]
    exact ih'

theorem fmt_data_millis (dt : DateTime) :
    (formatDateTime dt true).data
      = (pad 4 dt.year).data ++ '-' :: ((pad 2 dt.month).data ++ '-' ::
        ((pad 2 dt.day).data ++ ' ' :: ((pad 2 dt.hour).data ++ ':' ::
        ((pad 2 dt.minute).data ++ ':' :: ((pad 2 dt.second).data ++ '.' ::
        (pad 3 dt.msec).data))))) := by
  have h : (formatDateTime dt true).data
      = (pad 4 dt.year).data ++ '-' :: ((pad 2 dt.month).data ++ '-' ::
        ((pad 2 dt.day).data ++ ' ' :: ((pad 2 dt.hour).data ++ ':' ::
        ((pad 2 dt.minute).data ++ ':' :: ((pad 2 dt.second).data ++ '.' ::
        ((pad 3 dt.msec).data ++ [])))))) := rfl
  simpa using h

theorem fmt_data_nomillis (dt : DateTime) :
    (formatDateTime dt false).data
      = (pad 4 dt.year).data ++ '-' :: ((pad 2 dt.month).data ++ '-' ::
        ((pad 2 dt.day).data ++ ' ' :: ((pad 2 dt.hour).data ++ ':' ::
        ((pad 2 dt.minute).data ++ ':' :: (pad 2 dt.second).data)))) := by
  have h : (formatDateTime dt false).data
      = (pad 4 dt.year).data ++ '-' :: ((pad 2 dt.month).data ++ '-' ::
        ((pad 2 dt.day).data ++ ' ' :: ((pad 2 dt.hour).data ++ ':' ::
        ((pad 2 dt.minute).data ++ ':' :: ((pad 2 dt.second).data ++ []))))) := rfl
  simpa using h

theorem managerWF_aset {m : List (String × Nat × Nat)} (p : String) (c : Nat × Nat)
    (h : managerWF m) (hc : c.2 ≤ c.1) : managerWF (aset p c m) := by
  constructor
  · exact nodup_keys_aset p c h.1
  · intro e he
    rcases mem_aset he with h1 | h1
    · rw [h1]
      exact hc
    · exact h.2 e h1

theorem getD_le {m : List (String × Nat × Nat)} (p : String) (h : managerWF m) :
    ((alookup p m).getD (0, 0)).2 ≤ ((alookup p m).getD (0, 0)).1 := by
  cases hc : alookup p m with
  | none => simp
  | some v => simpa using h.2 (p, v) (alookup_mem hc)

theorem count_one_of_aset {m : List (String × Nat × Nat)} (p : String) (c : Nat × Nat)
    (h : managerWF (aset p c m)) :
    ((aset p c m).map Prod.fst).count p = 1 := by
  have hmem : p ∈ (aset p c m).map Prod.fst :=
    List.mem_map_of_mem Prod.fst (alookup_mem (alookup_aset_self p c m))
  exact List.count_eq_one_of_mem h.1 hmem

/-- Claim C1, amended to sequences of at least one call: for every sequence of
N ≥ 1 successful log(data) calls starting from an absent or empty target file
(with newline-free header and rows), the local log file afterwards contains
exactly N+1 lines: the header line first, followed by the N data rows in call
order. -/
theorem log_file_lines (w : World) (entries : List (DateTime × List Value)) (ack : Bool)
    (hne : entries ≠ [])
    (hpath : w.st.filename ≠ logManagerPath)
    (hinit : (alookup w.st.filename w.fs).getD [] = [])
    (hh : noNL (buildHeaderString w.st))
    (hl : ∀ e ∈ entries, noNL (buildLogLine w.st e.1 e.2)) :
    linesOfContent ((alookup w.st.filename ((logMany w entries ack)).fs).getD [])
      = buildHeaderString w.st :: entries.map (fun e => buildLogLine w.st e.1 e.2) := by
  cases entries with
  | nil => exact absurd rfl hne
  | cons e es =>
    rw [logMany_cons]
    have hfs : alookup ((log w e.1 e.2 ack).1).st.filename ((log w e.1 e.2 ack).1).fs
        = some (joinLines [buildHeaderString w.st, buildLogLine w.st e.1 e.2]) := by
      rw [log_st_filename, log_fs_path w e.1 e.2 ack hpath, hinit]
      simp [joinLines, List.append_assoc]
    have h1' : ((log w e.1 e.2 ack).1).st.filename ≠ logManagerPath := by
      rw [log_st_filename]
      exact hpath
    have hmain := logMany_content ack es ((log w e.1 e.2 ack).1)
      [buildHeaderString w.st, buildLogLine w.st e.1 e.2] h1' (by simp) hfs
    rw [log_st_filename] at hmain
    have hfun : (fun (x : DateTime × List Value) =>
        buildLogLine ((log w e.1 e.2 ack).1).st x.1 x.2)
        = (fun x => buildLogLine w.st x.1 x.2) := rfl
    rw [hfun] at hmain
    rw [hmain]
    simp only [Option.getD_some]
    rw [show ([buildHeaderString w.st, buildLogLine w.st e.1 e.2]
        ++ es.map (fun x => buildLogLine w.st x.1 x.2))
        = buildHeaderString w.st :: (e :: es).map (fun x => buildLogLine w.st x.1 x.2)
      by simp]
    apply linesOfContent_joinLines
    intro l hlmem
    rcases List.mem_cons.mp hlmem with hcase | hcase
    · exact hcase ▸ hh
    · rcases List.mem_map.mp hcase with ⟨x, hx, hrfl⟩
      exact hrfl ▸ hl x hx

/-- Witness for C1: the spec's own example — header ["a","b"], timestamp
disabled, logging [1,"x"] then [2,"y"] yields the file lines a,b / 1,x / 2,y. -/
theorem log_file_lines_witness :
    linesOfContent ((alookup "f.csv"
      ((logMany ⟨[], ⟨"f.csv", ["a", "b"], false, false, true, "", [], []⟩⟩
        [(⟨2019, 3, 14, 9, 5, 7, 42⟩, [Value.int 1, Value.str "x"]),
         (⟨2019, 3, 14, 9, 5, 7, 42⟩, [Value.int 2, Value.str "y"])] false)).fs).getD [])
      = ["a,b", "1,x", "2,y"] := by
  have h := log_file_lines ⟨[], ⟨"f.csv", ["a", "b"], false, false, true, "", [], []⟩⟩
    [(⟨2019, 3, 14, 9, 5, 7, 42⟩, [Value.int 1, Value.str "x"]),
     (⟨2019, 3, 14, 9, 5, 7, 42⟩, [Value.int 2, Value.str "y"])] false
    (by decide) (by decide) (by rfl) (by decide) (by decide)
  exact h.trans (by decide)

/-- Counterexample to C1 as stated: with zero log calls (N = 0) on an absent
file, the file afterwards has 0 lines, not N + 1 = 1 — no header is written
before the first log() call. -/
theorem log_zero_calls_counterexample :
    (linesOfContent ((alookup "f.csv"
      ((logMany ⟨[], ⟨"f.csv", ["a", "b"], false, false, true, "", [], []⟩⟩
        [] false)).fs).getD [])).length ≠ 0 + 1 := by decide

/-- Claim C2: after updateRemote() succeeds (the server acknowledges), the
remote row count stored in the log manager for the file equals its local row
count, and the pending-updates buffer for that file is cleared; likewise a
log() call whose push is acknowledged leaves the manager with remote = local
(both l+1) and an empty buffer. -/
theorem updateRemote_success_counts (m : List (String × Nat × Nat))
    (u : List (String × List String)) (path : String)
    (w : World) (now : DateTime) (data : List Value) :
    alookup path (updateRemote m u path true).1
      = some (((alookup path m).getD (0, 0)).1, ((alookup path m).getD (0, 0)).1)
    ∧ alookup path (updateRemote m u path true).2 = some []
    ∧ alookup w.st.filename ((log w now data true).1).st.logManager
      = some (((alookup w.st.filename w.st.logManager).getD (0, 0)).1 + 1,
              ((alookup w.st.filename w.st.logManager).getD (0, 0)).1 + 1)
    ∧ alookup w.st.filename ((log w now data true).1).st.updates = some [] := by
  refine ⟨?_, ?_, ?_, ?_⟩
  · simp only [updateRemote, if_true]
    rw [alookup_aset_self]
  · simp only [updateRemote, if_true]
    rw [alookup_aset_self]
  · rw [log_manager_true, alookup_aset_self]
  · rw [log_updates_true, alookup_aset_self]

/-- Claim C3: after updateRemote() fails, the manager and the pending buffer
are entirely unchanged; a failed log() leaves the buffer holding exactly the
unsent rows (old buffer plus the new row) with only the local count bumped,
and every log() hands the whole accumulated buffer to the remote push. -/
theorem updateRemote_failure_retains (m : List (String × Nat × Nat))
    (u : List (String × List String)) (path : String)
    (w : World) (now : DateTime) (data : List Value) (ack : Bool) :
    updateRemote m u path false = (m, u)
    ∧ (log w now data ack).2
        = (alookup w.st.filename w.st.updates).getD [] ++ [buildLogLine w.st now data]
    ∧ alookup w.st.filename ((log w now data false).1).st.updates
        = some ((alookup w.st.filename w.st.updates).getD []
            ++ [buildLogLine w.st now data])
    ∧ ((log w now data false).1).st.logManager
        = aset w.st.filename
            (((alookup w.st.filename w.st.logManager).getD (0, 0)).1 + 1,
             ((alookup w.st.filename w.st.logManager).getD (0, 0)).2)
            w.st.logManager := by
  refine ⟨rfl, log_batch w now data ack, ?_, log_manager_false w now data⟩
  rw [log_updates_false, alookup_aset_self]

/-- Claim C4: restarting with local count greater than the persisted remote
count rebuilds the pending buffer as exactly the rows between the two counts,
read from the local file via CSVReader at the byte offset implied by the
remote count (header plus the first remote rows). -/
theorem reconstructPending_rows_between (fs : FS) (path hline : String)
    (rows : List String) (remote : Nat)
    (hfile : alookup path fs = some (joinLines (hline :: rows)))
    (hh : noNL hline) (hr : ∀ l ∈ rows, noNL l)
    (_hlt : remote < rows.length) :
    reconstructPending fs path remote = rows.drop remote := by
  have hall : ∀ l ∈ hline :: rows, noNL l := by
    intro l hl
    rcases List.mem_cons.mp hl with hx | hx
    · exact hx ▸ hh
    · exact hr l hx
  simp only [reconstructPending, hfile]
  rw [linesOfContent_joinLines _ hall]
  simp only [CSVReader]
  rw [drop_joinLines, show (hline :: rows).drop (remote + 1) = rows.drop remote from rfl]
  exact linesOfContent_joinLines _ (fun l hl => hr l (List.mem_of_mem_drop hl))

/-- Witness for C4: a file with header a,b and rows 1,x / 2,y, remote count 1:
the reconstructed pending buffer is exactly the one unsynced row 2,y. -/
theorem reconstructPending_rows_between_witness :
    reconstructPending [("f.csv", joinLines ["a,b", "1,x", "2,y"])] "f.csv" 1
      = ["2,y"] := by
  have h := reconstructPending_rows_between [("f.csv", joinLines ["a,b", "1,x", "2,y"])]
    "f.csv" "a,b" ["1,x", "2,y"] 1 (by rfl) (by decide) (by decide) (by decide)
  exact h.trans (by decide)

/-- Claim C5: the log manager invariant is preserved by log() (local append
plus remote sync, acknowledged or not): keys stay duplicate-free, remote count
stays at most local count, counts are non-negative, the logged file has exactly
one entry, and a save/load round trip of the manager returns it unchanged. -/
theorem logManager_invariant (w : World) (now : DateTime) (data : List Value) (ack : Bool)
    (h : managerWF w.st.logManager) :
    managerWF ((log w now data ack).1).st.logManager
    ∧ (alookup w.st.filename ((log w now data ack).1).st.logManager).isSome = true
    ∧ (((log w now data ack).1).st.logManager.map Prod.fst).count w.st.filename = 1
    ∧ (∀ e ∈ ((log w now data ack).1).st.logManager, 0 ≤ e.2.1 ∧ 0 ≤ e.2.2)
    ∧ (∀ fs m, cleanKeys m → loadLogManager (saveLogManager fs m) = m) := by
  have hle := getD_le w.st.filename h
  cases ack with
  | false =>
    have hm1 : managerWF (aset w.st.filename
        (((alookup w.st.filename w.st.logManager).getD (0, 0)).1 + 1,
         ((alookup w.st.filename w.st.logManager).getD (0, 0)).2) w.st.logManager) :=
      managerWF_aset _ _ h (Nat.le_succ_of_le hle)
    refine ⟨?_, ?_, ?_, ?_, fun fs m hck => loadLogManager_saveLogManager fs m hck⟩
    · rw [log_manager_false]
      exact hm1
    · rw [log_manager_false, alookup_aset_self]
      rfl
    · rw [log_manager_false]
      exact count_one_of_aset _ _ hm1
    · intro e he
      exact ⟨Nat.zero_le _, Nat.zero_le _⟩
  | true =>
    have hm1 : managerWF (aset w.st.filename
        (((alookup w.st.filename w.st.logManager).getD (0, 0)).1 + 1,
         ((alookup w.st.filename w.st.logManager).getD (0, 0)).2) w.st.logManager) :=
      managerWF_aset _ _ h (Nat.le_succ_of_le hle)
    have hm2 : managerWF (aset w.st.filename
        (((alookup w.st.filename w.st.logManager).getD (0, 0)).1 + 1,
         ((alookup w.st.filename w.st.logManager).getD (0, 0)).1 + 1)
        (aset w.st.filename
          (((alookup w.st.filename w.st.logManager).getD (0, 0)).1 + 1,
           ((alookup w.st.filename w.st.logManager).getD (0, 0)).2) w.st.logManager)) :=
      managerWF_aset _ _ hm1 (Nat.le_refl _)
    refine ⟨?_, ?_, ?_, ?_, fun fs m hck => loadLogManager_saveLogManager fs m hck⟩
    · rw [log_manager_true]
      exact hm2
    · rw [log_manager_true, alookup_aset_self]
      rfl
    · rw [log_manager_true]
      exact count_one_of_aset _ _ hm2
    · intro e he
      exact ⟨Nat.zero_le _, Nat.zero_le _⟩

/-- Witness for C5: after an acknowledged log() on a manager tracking
("f.csv", 3, 1), the logged file still has an entry in the manager. -/
theorem logManager_invariant_witness :
    (alookup "f.csv"
      ((log ⟨[], ⟨"f.csv", ["a"], false, false, true, "", [("f.csv", 3, 1)], []⟩⟩
        ⟨2019, 3, 14, 9, 5, 7, 42⟩ [Value.int 7] true).1).st.logManager).isSome = true :=
  (logManager_invariant ⟨[], ⟨"f.csv", ["a"], false, false, true, "", [("f.csv", 3, 1)], []⟩⟩
    ⟨2019, 3, 14, 9, 5, 7, 42⟩ [Value.int 7] true ⟨by decide, by decide⟩).2.1

/-- Claim C6: with a non-empty configured header, buildHeaderString() yields
the line Timestamp,fields exactly when timestamp logging is enabled, and the
delimited header fields alone otherwise. -/
theorem buildHeaderString_timestamp_iff (st : LoggerState) (h : st.header ≠ []) :
    (st.logTime = true → buildHeaderString st = "Timestamp," ++ joinFields st.header)
    ∧ (st.logTime = false → buildHeaderString st = joinFields st.header) := by
  constructor
  · intro ht
    cases hh : st.header with
    | nil => exact absurd hh h
    | cons a t =>
      simp only [buildHeaderString, ht, if_true, timestampHeader, hh]
      rfl
  · intro hf
    simp [buildHeaderString, hf]

/-- Witness for C6: with header ["a","b"] and timestamps on, the header line
is Timestamp,a,b. -/
theorem buildHeaderString_timestamp_iff_witness :
    buildHeaderString ⟨"f.csv", ["a", "b"], false, true, true, "", [], []⟩
      = "Timestamp," ++ joinFields ["a", "b"] :=
  (buildHeaderString_timestamp_iff ⟨"f.csv", ["a", "b"], false, true, true, "", [], []⟩
    (by decide)).1 rfl

/-- Claim C7: log() writes the header line exactly when the target file is
absent or empty; on a non-empty file it appends exactly the one data line, so
re-opening an existing non-empty log never duplicates the header. -/
theorem header_written_once (w : World) (now : DateTime) (data : List Value) (ack : Bool)
    (hpath : w.st.filename ≠ logManagerPath) :
    ((alookup w.st.filename w.fs).getD [] = [] →
      alookup w.st.filename ((log w now data ack).1).fs
        = some ((buildHeaderString w.st).data ++ '\n'
            :: ((buildLogLine w.st now data).data ++ ['\n'])))
    ∧ (∀ c, alookup w.st.filename w.fs = some c → c ≠ [] →
      alookup w.st.filename ((log w now data ack).1).fs
        = some (c ++ (buildLogLine w.st now data).data ++ ['\n']))
    ∧ (∀ ls, ls ≠ [] → alookup w.st.filename w.fs = some (joinLines ls) →
        (∀ l ∈ ls, noNL l) → noNL (buildLogLine w.st now data) →
      linesOfContent ((alookup w.st.filename ((log w now data ack).1).fs).getD [])
        = ls ++ [buildLogLine w.st now data]) := by
  refine ⟨?_, ?_, ?_⟩
  · intro hinit
    rw [log_fs_path w now data ack hpath, hinit]
    simp [List.append_assoc]
  · intro c hc hcne
    rw [log_fs_path w now data ack hpath, hc]
    simp only [Option.getD_some, isEmpty_false_of_ne hcne, Bool.false_eq_true, if_false]
  · intro ls hlsne hjl hnl hline
    rw [log_fs_path w now data ack hpath, hjl]
    simp only [Option.getD_some, isEmpty_false_of_ne (joinLines_ne_nil hlsne),
      Bool.false_eq_true, if_false]
    rw [← joinLines_concat ls (buildLogLine w.st now data)]
    apply linesOfContent_joinLines
    intro l hl
    rcases List.mem_append.mp hl with hx | hx
    · exact hnl l hx
    · rw [List.mem_singleton.mp hx]
      exact hline

/-- Witness for C7: logging 2,y to an existing non-empty file a,b / 1,x
appends only that row — no second header line. -/
theorem header_written_once_witness :
    alookup "f.csv"
      ((log ⟨[("f.csv", "a,b\n1,x\n".data)],
          ⟨"f.csv", ["a", "b"], false, false, true, "", [("f.csv", 1, 0)], []⟩⟩
        ⟨2019, 3, 14, 9, 5, 7, 42⟩ [Value.int 2, Value.str "y"] false).1).fs
      = some ("a,b\n1,x\n".data ++ "2,y".data ++ ['\n']) := by
  have h := (header_written_once ⟨[("f.csv", "a,b\n1,x\n".data)],
      ⟨"f.csv", ["a", "b"], false, false, true, "", [("f.csv", 1, 0)], []⟩⟩
    ⟨2019, 3, 14, 9, 5, 7, 42⟩ [Value.int 2, Value.str "y"] false (by decide)).2.1
    ("a,b\n1,x\n".data) (by rfl) (by decide)
  exact h.trans (by decide)

/-- Claim C8: loadLogManager() returns the mapping parsed from the manager
file when it is present and parses; when the manager file is absent or
malformed it returns the empty mapping instead of failing. -/
theorem loadLogManager_parse_or_empty (fs : FS) :
    (alookup logManagerPath fs = none → loadLogManager fs = [])
    ∧ (∀ c m, alookup logManagerPath fs = some c → parseManager c = some m →
        loadLogManager fs = m)
    ∧ (∀ c, alookup logManagerPath fs = some c → parseManager c = none →
        loadLogManager fs = []) := by
  refine ⟨?_, ?_, ?_⟩
  · intro hnone
    simp [loadLogManager, hnone]
  · intro c m hc hm
    simp [loadLogManager, hc, hm]
  · intro c hc hm
    simp [loadLogManager, hc, hm]

/-- Witness for C8: a manager file holding the line f,2,1 loads as the mapping
f to (2, 1). -/
theorem loadLogManager_parse_or_empty_witness :
    loadLogManager [("logManager.csv", "f,2,1\n".data)] = [("f", 2, 1)] :=
  (loadLogManager_parse_or_empty [("logManager.csv", "f,2,1\n".data)]).2.1
    ("f,2,1\n".data) [("f", 2, 1)] (by rfl) (by decide)

/-- Claim C9: while the log is being written (after the first log() call and
until close()), setLogTime and setHeader leave the state entirely unchanged,
and log() does set the writing flag. -/
theorem settings_frozen_while_writing (w : World) (now : DateTime) (data : List Value)
    (ack : Bool) (st : LoggerState) (b : Bool) (hs : List String)
    (h : st.writing = true) :
    setLogTime st b = st ∧ setHeader st hs = st
    ∧ ((log w now data ack).1).st.writing = true := by
  refine ⟨?_, ?_, rfl⟩ <;> simp [setLogTime, setHeader, h]

/-- Witness for C9: on a writing state, setLogTime false and setHeader ["z"]
both return the state unchanged. -/
theorem settings_frozen_while_writing_witness :
    setLogTime ⟨"f.csv", ["a"], true, true, true, "", [], []⟩ false
      = ⟨"f.csv", ["a"], true, true, true, "", [], []⟩
    ∧ setHeader ⟨"f.csv", ["a"], true, true, true, "", [], []⟩ ["z"]
      = ⟨"f.csv", ["a"], true, true, true, "", [], []⟩ := by
  have h := settings_frozen_while_writing
    ⟨[], ⟨"f.csv", ["a"], false, false, true, "", [], []⟩⟩
    ⟨2019, 3, 14, 9, 5, 7, 42⟩ [] false
    ⟨"f.csv", ["a"], true, true, true, "", [], []⟩ false ["z"] (by decide)
  exact ⟨h.1, h.2.1⟩

/-- Claim C10: with timestamp logging enabled, every line built by
buildLogLine has the current timestamp as its first comma-delimited field,
rendered as yyyy-MM-dd HH:mm:ss with zero-padded components, the .zzz
milliseconds part present exactly when logMillis is set. -/
theorem buildLogLine_timestamp_format (st : LoggerState) (now : DateTime)
    (data : List Value) (h : st.logTime = true) (hd : data ≠ []) :
    buildLogLine st now data
      = formatDateTime now st.logMillis ++ "," ++ joinFields (data.map renderValue)
    ∧ formatDateTime now true
      = pad 4 now.year ++ "-" ++ pad 2 now.month ++ "-" ++ pad 2 now.day ++ " "
        ++ pad 2 now.hour ++ ":" ++ pad 2 now.minute ++ ":" ++ pad 2 now.second
        ++ "." ++ pad 3 now.msec
    ∧ formatDateTime now false
      = pad 4 now.year ++ "-" ++ pad 2 now.month ++ "-" ++ pad 2 now.day ++ " "
        ++ pad 2 now.hour ++ ":" ++ pad 2 now.minute ++ ":" ++ pad 2 now.second := by
  refine ⟨?_, ?_, ?_⟩
  · cases hm : data.map renderValue with
    | nil => exact absurd (List.map_eq_nil_iff.mp hm) hd
    | cons a t =>
      simp only [buildLogLine, h, if_true, hm]
      rfl
  · apply String.ext
    rw [fmt_data_millis]
    simp [data_append]
  · apply String.ext
    rw [fmt_data_nomillis]
    simp [data_append]

/-- Witness for C10: at 2019-03-14 09:05:07.042, logging the value 1 with
milliseconds on yields the line 2019-03-14 09:05:07.042,1. -/
theorem buildLogLine_timestamp_format_witness :
    buildLogLine ⟨"f.csv", ["a"], false, true, true, "", [], []⟩
        ⟨2019, 3, 14, 9, 5, 7, 42⟩ [Value.int 1]
      = "2019-03-14 09:05:07.042,1" := by
  have h := (buildLogLine_timestamp_format
    ⟨"f.csv", ["a"], false, true, true, "", [], []⟩
    ⟨2019, 3, 14, 9, 5, 7, 42⟩ [Value.int 1] (by rfl) (by decide)).1
  exact h.trans (by decide)

end RCSVLogger
